import Mathlib

/-!
Verification of the metric-proxy counter kernel, exporter, job registry,
trace engine, scrape scheduler and ingest server against their
natural-language specification.

Conventions of the embedding:
* Rust `f64` is modelled by `F64`: exact rational arithmetic together with an
  explicit NaN and signed infinities.  IEEE-754 rounding is abstracted away
  (all claims are stated up to rounding); negative zero is identified with
  zero.  Comparisons, addition, subtraction and division follow the IEEE
  rules on these representatives (NaN is absorbing, comparisons with NaN are
  false, `0/0 = NaN`, `q/0 = ±inf`).
* Rust `u64` is modelled by `Nat` with explicit wrap-around modulo `2^64`
  (release-build wrapping semantics).
* Rust strings are modelled by `List Char`; `&mut self` methods returning
  `Result` are modelled as functions returning a pair of an optional error
  and the new value of `self` (on error the value is unchanged exactly when
  the source leaves it unchanged).
* `HashMap` is modelled as an association list with the first occurrence of
  a key being its binding (the lists we build never hold duplicate keys).
-/

/-- Model of an IEEE-754 binary64 value: NaN, a signed infinity
(`inf true` is negative infinity) or a finite value, with rounding
abstracted to exact rationals. -/
inductive F64 where
  | nan : F64
  | inf : Bool → F64
  | fin : ℚ → F64
deriving DecidableEq, Repr

/-- IEEE `<` on `F64` values: every comparison with NaN is false,
negative infinity is below all finite values, positive infinity above. -/
def F64.flt : F64 → F64 → Bool
  | .nan, _ => false
  | _, .nan => false
  | .inf s, .inf t => s && !t
  | .inf s, .fin _ => s
  | .fin _, .inf s => !s
  | .fin a, .fin b => decide (a < b)

/-- IEEE addition on `F64` (exact on finite values). -/
def F64.fadd : F64 → F64 → F64
  | .nan, _ => .nan
  | _, .nan => .nan
  | .inf s, .inf t => if s = t then .inf s else .nan
  | .inf s, .fin _ => .inf s
  | .fin _, .inf s => .inf s
  | .fin a, .fin b => .fin (a + b)

/-- IEEE subtraction on `F64` (exact on finite values). -/
def F64.fsub : F64 → F64 → F64
  | .nan, _ => .nan
  | _, .nan => .nan
  | .inf s, .inf t => if s = t then .nan else .inf s
  | .inf s, .fin _ => .inf s
  | .fin _, .inf s => .inf !s
  | .fin a, .fin b => .fin (a - b)

/-- IEEE division on `F64`: `0/0` is NaN, a nonzero finite value divided by
zero is a signed infinity, a finite value divided by an infinity is zero. -/
def F64.fdiv : F64 → F64 → F64
  | .nan, _ => .nan
  | _, .nan => .nan
  | .inf _, .inf _ => .nan
  | .inf s, .fin b => if b < 0 then .inf !s else .inf s
  | .fin _, .inf _ => .fin 0
  | .fin a, .fin b =>
      if b = 0 then (if a = 0 then .nan else .inf (decide (a < 0)))
      else .fin (a / b)

/-- Source `min_f64(a, b)`: literally `if a < b { a } else { b }`. -/
def min_f64 (a b : F64) : F64 := if F64.flt a b then a else b

/-- Source `max_f64(a, b)`: literally `if a < b { b } else { a }`. -/
def max_f64 (a b : F64) : F64 := if F64.flt a b then b else a

/-- Rendering of an `F64` as Rust `Display` prints it ("NaN", "inf",
"-inf"; integral finite values print as their integer). Non-integral
rationals are rendered as `num/den`, which differs textually from Rust's
decimal output but agrees on the values the claims exercise. -/
def F64.render : F64 → List Char
  | .nan => ("NaN").toList
  | .inf false => ("inf").toList
  | .inf true => ("-inf").toList
  | .fin q =>
      if q.den = 1 then (toString q.num).toList
      else (toString q.num).toList ++ ['/'] ++ (toString q.den).toList

/-- Wrap-around bound of `u64`. -/
def U64 : Nat := 2 ^ 64

/-- Rust release-mode `u64` addition then halving, as in
`*sts = (*ts + *sts) / 2`. -/
def u64mean (a b : Nat) : Nat := ((a + b) % U64) / 2

/-- Rust release-mode wrapping `u64` subtraction `a - b`. -/
def u64sub (a b : Nat) : Nat := (a + U64 - b % U64) % U64

/-- Source `CounterType`: a monotonic counter with timestamp, or a
running-aggregate gauge `(min, max, hits, total)`. -/
inductive CounterType where
  | counter : Nat → F64 → CounterType
  | gauge : F64 → F64 → F64 → F64 → CounterType
deriving DecidableEq, Repr

/-- Source `CounterType::same_type` as a boolean. -/
def CounterType.same_type : CounterType → CounterType → Bool
  | .gauge _ _ _ _, .gauge _ _ _ _ => true
  | .counter _ _, .counter _ _ => true
  | _, _ => false

/-- Source `CounterType::merge(&mut self, other)`. The result pairs the
error (`same_type` mismatch) with the new value of `self`; on error `self`
is returned unchanged, as in the source where the type check precedes any
mutation.  Counter: timestamps averaged, values summed.  Gauge: min/max
kept, hits and total summed. -/
def CounterType.merge (self other : CounterType) : Option (List Char) × CounterType :=
  match self, other with
  | .counter sts svalue, .counter ts value =>
      (none, .counter (u64mean ts sts) (F64.fadd svalue value))
  | .gauge smin smax shits stotal, .gauge mn mx hits total =>
      (none, .gauge (min_f64 smin mn) (max_f64 smax mx)
        (F64.fadd shits hits) (F64.fadd stotal total))
  | _, _ => (some ("Both instances are not of the same variant").toList, self)

/-- Source `CounterType::set(&mut self, other)`. Counter accumulates like
`merge`; Gauge replaces min/max/total with `other.total` and hits with 1. -/
def CounterType.set (self other : CounterType) : Option (List Char) × CounterType :=
  match self, other with
  | .counter sts svalue, .counter ts value =>
      (none, .counter (u64mean ts sts) (F64.fadd svalue value))
  | .gauge _ _ _ _, .gauge _ _ _ total =>
      (none, .gauge total total (.fin 1) total)
  | _, _ => (some ("Both instances are not of the same variant").toList, self)

/-- Source `CounterType::delta(&mut self, other)`. Counter: `self`'s
timestamp and value have `other`'s subtracted (wrapping for the `u64`
timestamp).  Gauge: min/max combined with `min_f64`/`max_f64` while hits
and total are subtracted. -/
def CounterType.delta (self other : CounterType) : Option (List Char) × CounterType :=
  match self, other with
  | .counter sts svalue, .counter ts value =>
      (none, .counter (u64sub sts ts) (F64.fsub svalue value))
  | .gauge smin smax shits stotal, .gauge mn mx hits total =>
      (none, .gauge (min_f64 smin mn) (max_f64 smax mx)
        (F64.fsub shits hits) (F64.fsub stotal total))
  | _, _ => (some ("Both instances are not of the same variant").toList, self)

/-- Source `CounterType::value()`: raw value for a counter, `total / hits`
for a gauge with no special case for `hits = 0`. -/
def CounterType.value : CounterType → F64
  | .counter _ v => v
  | .gauge _ _ hits total => F64.fdiv total hits

/-- Source `CounterType::hasdata()`. -/
def CounterType.hasdata : CounterType → Bool
  | .counter _ v => decide (v ≠ .fin 0)
  | .gauge _ _ hits _ => decide (hits ≠ .fin 0)

/-- Source `CounterType::serialize(name)`: one text-format sample line.
The gauge line prints `total / hits` with no coercion. -/
def CounterType.serialize (c : CounterType) (name : List Char) : List Char :=
  match c with
  | .counter ts v =>
      name ++ [' '] ++ (toString ts).toList ++ [' '] ++ F64.render v ++ ['\n']
  | .gauge _ _ hits total =>
      name ++ [' '] ++ F64.render (F64.fdiv total hits) ++ ['\n']

/-- Rust `str::split(sep)` for a single-character separator, on strings
modelled as character lists. -/
def splitChar (sep : Char) : List Char → List (List Char)
  | [] => [[]]
  | c :: rest =>
      if c = sep then [] :: splitChar sep rest
      else
        match splitChar sep rest with
        | [] => [[c]]
        | g :: gs => (c :: g) :: gs

/-- `HashMap::get` on an association list; the first binding of a key is
its value (the maps built here never hold duplicate keys). -/
def lookupA {β : Type} : List (List Char × β) → List Char → Option β
  | [], _ => none
  | kv :: rest, k => if kv.1 = k then some kv.2 else lookupA rest k

/-- `HashMap::get_mut` followed by in-place mutation: replace the first
binding of the key, leaving everything else in place. -/
def updateA {β : Type} : List (List Char × β) → List Char → β → List (List Char × β)
  | [], _, _ => []
  | kv :: rest, k, v => if kv.1 = k then (k, v) :: rest else kv :: updateA rest k v

/-- `HashMap::insert`: replace the binding if the key exists, else append. -/
def insertA {β : Type} : List (List Char × β) → List Char → β → List (List Char × β)
  | [], k, v => [(k, v)]
  | kv :: rest, k, v => if kv.1 = k then (k, v) :: rest else kv :: insertA rest k v

/-- `HashMap::remove`. -/
def removeA {β : Type} : List (List Char × β) → List Char → List (List Char × β)
  | [], _ => []
  | kv :: rest, k => if kv.1 = k then removeA rest k else kv :: removeA rest k

/-- Source `CounterSnapshot`: full metric name, documentation, value. -/
structure CounterSnapshot where
  name : List Char
  doc : List Char
  ctype : CounterType
deriving DecidableEq, Repr

/-- Source `ExporterEntryGroup`: all label-variants of one base name. -/
structure ExporterEntryGroup where
  basename : List Char
  doc : List Char
  ht : List (List Char × CounterSnapshot)
deriving DecidableEq, Repr

/-- Source associated function `ExporterEntryGroup::basename(name)`:
`name.split('{').collect()[0]`, the prefix of the name before the first
brace-open character.  (Named `basenameOf` because the structure field of
the same name exists in Lean too.) -/
def ExporterEntryGroup.basenameOf (name : List Char) : List Char :=
  (splitChar '{' name).headD []

/-- Source `ExporterEntryGroup::push`: a name already present is a no-op;
a name containing a brace-open but no brace-close character is rejected
(the only brace check there is); otherwise the snapshot is inserted.  The
pair returns the error and the new group state. -/
def ExporterEntryGroup.push (g : ExporterEntryGroup) (snapshot : CounterSnapshot) :
    Option (List Char) × ExporterEntryGroup :=
  if (lookupA g.ht snapshot.name).isSome then (none, g)
  else if snapshot.name.contains '{' && !(snapshot.name.contains '}') then
    (some (("Bad metric name, unmatched brackets").toList), g)
  else (none, { g with ht := g.ht ++ [(snapshot.name, snapshot)] })

/-- Source `Exporter`: metric storage keyed by basename (the alarm
registry is not involved in the claims and is omitted). -/
structure Exporter where
  ht : List (List Char × ExporterEntryGroup)
deriving DecidableEq, Repr

/-- Source `Exporter::push`: find or create the basename group and push
into it; a newly created group is inserted into the map only when the
inner push succeeded (`?` propagates the error before the insert), so a
rejected push leaves the exporter unchanged. -/
def Exporter.push (e : Exporter) (value : CounterSnapshot) :
    Option (List Char) × Exporter :=
  let basename := ExporterEntryGroup.basenameOf value.name
  match lookupA e.ht basename with
  | some g =>
      let r := g.push value
      (r.1, ⟨updateA e.ht basename r.2⟩)
  | none =>
      let g : ExporterEntryGroup := ⟨basename, value.doc, []⟩
      let r := g.push value
      match r.1 with
      | some msg => (some msg, e)
      | none => (none, ⟨e.ht ++ [(basename, r.2)]⟩)

/-- Whether the exact full metric name is stored in the exporter. -/
def Exporter.hasName (e : Exporter) (name : List Char) : Bool :=
  match lookupA e.ht (ExporterEntryGroup.basenameOf name) with
  | some g => (lookupA g.ht name).isSome
  | none => false

/-- Source `JobDesc`. -/
structure JobDesc where
  jobid : List Char
  command : List Char
  size : Int
  nodelist : List Char
  partition : List Char
  cluster : List Char
  run_dir : List Char
  start_time : F64
  end_time : F64
deriving DecidableEq, Repr

/-- Source `PerJobRefcount`; the `Arc<Exporter>` handle is modelled by the
allocation number of the exporter, so handle equality is meaningful. -/
structure PerJobRefcount where
  desc : JobDesc
  counter : Int
  exporter : Nat
  islocal : Bool
deriving DecidableEq, Repr

/-- The registry-relevant state of `ExporterFactory`: the `perjob` table
and the next fresh exporter handle. -/
structure FactoryState where
  perjob : List (List Char × PerJobRefcount)
  nextExporter : Nat
deriving DecidableEq, Repr

/-- Source `ExporterFactory::resolve_job(desc, tobesaved)`: create or
refcount.  An existing entry keeps its stored descriptor and exporter
handle; only the refcount is incremented and `islocal` is set when
`tobesaved` holds.  A missing entry is created at refcount 1 with a fresh
exporter.  Returns the new state and the returned exporter handle. -/
def resolveJob (st : FactoryState) (desc : JobDesc) (tobesaved : Bool) :
    FactoryState × Nat :=
  match lookupA st.perjob desc.jobid with
  | some e =>
      let e2 : PerJobRefcount :=
        { e with counter := e.counter + 1, islocal := e.islocal || tobesaved }
      ({ st with perjob := updateA st.perjob desc.jobid e2 }, e.exporter)
  | none =>
      let new : PerJobRefcount := ⟨desc, 1, st.nextExporter, tobesaved⟩
      (⟨st.perjob ++ [(desc.jobid, new)], st.nextExporter + 1⟩, st.nextExporter)

/-- Source `ExporterFactory::relax_job(desc)`: decrement the refcount of
the entry at `desc.jobid` — there is no special-casing of the sentinel
jobs; at zero the entry is removed (the profile/trace persistence done
there does not touch the registry); a missing jobid is a returned error.
The `assert!(0 <= counter)` is modelled as an error; it is unreachable
from states whose stored counters are positive. -/
def relaxJob (st : FactoryState) (desc : JobDesc) : Option (List Char) × FactoryState :=
  match lookupA st.perjob desc.jobid with
  | some e =>
      let c := e.counter - 1
      if c < 0 then (some ("assertion failed: 0 <= counter").toList, st)
      else if c = 0 then (none, { st with perjob := removeA st.perjob desc.jobid })
      else (none, { st with perjob := updateA st.perjob desc.jobid { e with counter := c } })
  | none => (some ("No such job to remove").toList, st)

/-- The `"main"` sentinel descriptor built in `ExporterFactory::new`. -/
def mainJobDesc : JobDesc :=
  ⟨['m', 'a', 'i', 'n'], ("Sum of all Jobs").toList, 0, [], [], [], [], .fin 0, .fin 0⟩

/-- The jobid of the per-node sentinel, `format!("Node: {}", hostname())`. -/
def nodeJobId (host : List Char) : List Char :=
  ['N', 'o', 'd', 'e', ':', ' '] ++ host

/-- The per-node sentinel descriptor built in `ExporterFactory::new`. -/
def nodeJobDesc (host : List Char) : JobDesc :=
  ⟨nodeJobId host, ("Sum of all Jobs running on ").toList ++ host, 0, host,
    [], [], [], .fin 0, .fin 0⟩

/-- The registry right after `ExporterFactory::new`: the two sentinel
entries at refcount 1 with `islocal = false`; exporter handle 0 is `main`,
1 is `pernode`. -/
def initialFactoryState (host : List Char) : FactoryState :=
  ⟨[(mainJobDesc.jobid, ⟨mainJobDesc, 1, 0, false⟩),
    (nodeJobId host, ⟨nodeJobDesc host, 1, 1, false⟩)], 2⟩

/-- One call into the job registry. -/
inductive JobOp where
  | resolve (desc : JobDesc) (tobesaved : Bool)
  | relax (desc : JobDesc)

/-- The jobid a registry call addresses. -/
def JobOp.jobid : JobOp → List Char
  | .resolve d _ => d.jobid
  | .relax d => d.jobid

/-- Apply one registry call; a `relax_job` error leaves the registry
unchanged (callers only log it). -/
def applyJobOp (st : FactoryState) (op : JobOp) : FactoryState :=
  match op with
  | .resolve d t => (resolveJob st d t).1
  | .relax d => (relaxJob st d).2

/-- A sequence of registry calls, applied in order. -/
def runJobOps (st : FactoryState) (ops : List JobOp) : FactoryState :=
  ops.foldl applyJobOp st

/-- Source `ValueDesc`. -/
structure ValueDesc where
  name : List Char
  doc : List Char
  ctype : CounterType
deriving DecidableEq, Repr

/-- Source `CounterValue`. -/
structure CounterValue where
  name : List Char
  value : CounterType
deriving DecidableEq, Repr

/-- Source `ProxyCommand`: the three framed ingest messages. -/
inductive ProxyCommand where
  | desc (d : ValueDesc)
  | value (v : CounterValue)
  | jobDesc (d : JobDesc)
deriving DecidableEq, Repr

/-- Source `PerClientState`, keeping what the claim observes: the last
received job descriptor and whether `resolve_job` was invoked (that is,
whether `job_exporter` is `Some`). -/
structure PerClientState where
  jobDesc : Option JobDesc
  jobExporter : Bool
deriving DecidableEq, Repr

/-- Source `UnixProxy::handle_command`: `Desc`/`Value` fan out to the
exporters without touching the connection state; a `JobDesc` is stored,
and `resolve_job(desc, true)` is called — filling `job_exporter` — only
when its jobid is non-empty. -/
def handleCommand (s : PerClientState) (cmd : ProxyCommand) : PerClientState :=
  match cmd with
  | .desc _ => s
  | .value _ => s
  | .jobDesc d =>
      if d.jobid ≠ [] then ⟨some d, true⟩ else ⟨some d, s.jobExporter⟩

/-- The EOF epilogue of source `UnixProxy::handle_client` (lines 100-106):
when a job descriptor was stored, the handler stamps `end_time` and calls
`relax_job` only if the jobid IS empty (`desc.jobid.is_empty()`).  Returns
the descriptor passed to `relax_job`, or `none` when `relax_job` is not
called. -/
def handleClientEof (s : PerClientState) (now : F64) : Option JobDesc :=
  match s.jobDesc with
  | some desc =>
      if desc.jobid = [] then some { desc with end_time := now } else none
  | none => none

/-- Source `UnixProxy::handle_client` on a decoded message sequence ending
in EOF: the per-client state after all commands, paired with the
descriptor `relax_job` is called on at EOF (if any). -/
def handleClient (cmds : List ProxyCommand) (now : F64) :
    PerClientState × Option JobDesc :=
  let s := cmds.foldl handleCommand ⟨none, false⟩
  (s, handleClientEof s now)

/-- Source `ScraperType`: the five scrape source kinds (payloads beyond
the jobid are irrelevant to the scheduler). -/
inductive ScraperType where
  | proxy
  | prometheus
  | systemMetrics
  | trace (jobid : List Char)
  | ftio (jobid : List Char)
deriving DecidableEq, Repr

/-- Source `ProxyScraper`, abstracting the two environment interactions of
`scrape()`: `due` stands for `now - last_scrape >= period*1e6`, and
`execFails` for the underlying scrape action returning an error this
tick. -/
structure ProxyScraper where
  target_url : List Char
  ttype : ScraperType
  due : Bool
  execFails : Bool
deriving DecidableEq, Repr

/-- Source `ProxyScraper::scrape()`: return `Ok` early when the period has
not elapsed; otherwise dispatch on the kind — every arm calls its action
with `?`, so a failure propagates identically for all five kinds. -/
def ProxyScraper.scrape (s : ProxyScraper) : Option (List Char) :=
  if !s.due then none
  else
    match s.ttype with
    | .proxy => if s.execFails then some ("scrape failed").toList else none
    | .prometheus => if s.execFails then some ("scrape failed").toList else none
    | .systemMetrics => if s.execFails then some ("scrape failed").toList else none
    | .trace _ => if s.execFails then some ("scrape failed").toList else none
    | .ftio _ => if s.execFails then some ("scrape failed").toList else none

/-- Source `ExporterFactory::run_scrapping`, one tick: scrape every
registered source collecting the keys of the ones that returned an error,
then move the pending scrapes into the registry, then remove every
collected key — with no inspection of the source kind. -/
def runScrappingTick (scrapes pending : List (List Char × ProxyScraper)) :
    List (List Char × ProxyScraper) :=
  let to_delete := (scrapes.filter (fun kv => kv.2.scrape.isSome)).map Prod.fst
  let withPending := pending.foldl (fun acc kv => insertA acc kv.1 kv.2) scrapes
  to_delete.foldl removeA withPending

/-- Source `TraceCounter`: a counter sample referencing an interned id. -/
structure TraceCounter where
  id : Nat
  value : CounterType
deriving DecidableEq, Repr

/-- Source `TraceFrame`: the tagged union stored in a trace file. -/
inductive TraceFrame where
  | desc (ts : F64) (d : JobDesc)
  | counterMetadata (ts : F64) (id : Nat) (name : List Char) (doc : List Char)
  | counters (ts : F64) (cs : List TraceCounter)
deriving DecidableEq, Repr

/-- Source `TraceFrame::is_counters`. -/
def TraceFrame.is_counters : TraceFrame → Bool
  | .counters _ _ => true
  | _ => false

/-- Source `TraceFrame::is_metadata`. -/
def TraceFrame.is_metadata : TraceFrame → Bool
  | .counterMetadata _ _ _ _ => true
  | _ => false

/-- The `HashMap` that `mergecounters` builds from `first`
(`first.iter().map(|v| (v.id, v)).collect()`): on duplicate ids the later
insertion wins, so lookup returns the last occurrence. -/
def lastById (l : List TraceCounter) (id : Nat) : Option TraceCounter :=
  l.reverse.find? (fun c => decide (c.id = id))

/-- One element of source `TraceFrame::mergecounters`: combine a counter
`v` of the second frame with the first frame's entry of the same id.  A
Counter keeps `v`'s timestamp and value verbatim (the first frame's value
is discarded); a Gauge keeps min/min, max/max and sums hits/total; the
mixed-variant `unreachable!` panic is modelled as `none`. -/
def mergeOneCounter (first : List TraceCounter) (v : TraceCounter) :
    Option TraceCounter :=
  match lastById first v.id with
  | some prev =>
      match v.value, prev.value with
      | .counter ts value, .counter _ _ => some ⟨v.id, .counter ts value⟩
      | .gauge mn mx hits total, .gauge mn2 mx2 hits2 total2 =>
          some ⟨v.id, .gauge (min_f64 mn mn2) (max_f64 mx mx2)
            (F64.fadd hits hits2) (F64.fadd total total2)⟩
      | _, _ => none
  | none => some v

/-- Source `TraceFrame::mergecounters(first, second)`: map `mergeOneCounter`
over `second` in order (counters only in `first` are dropped). -/
def mergecounters (first second : List TraceCounter) :
    Option (List TraceCounter) :=
  match second with
  | [] => some []
  | v :: rest =>
      match mergeOneCounter first v, mergecounters first rest with
      | some y, some ys => some (y :: ys)
      | _, _ => none

/-- Source `TraceFrame::sum`: combine two Counters frames, averaging the
frame timestamps; any other frame shape is an `unreachable!` panic,
modelled as `none`. -/
def TraceFrame.sum (self other : TraceFrame) : Option TraceFrame :=
  match self, other with
  | .counters ts cs, .counters tsb csb =>
      (mergecounters cs csb).map
        (fun m => .counters (F64.fdiv (F64.fadd tsb ts) (.fin 2)) m)
  | _, _ => none

/-- `par_chunks(2)` pairing: adjacent pairs, the odd trailing element
dropped. -/
def pairs {α : Type} : List α → List (α × α)
  | a :: b :: rest => (a, b) :: pairs rest
  | _ => []

/-- Source `TraceState::fold` restricted to its effect on the frame list:
the Desc frame first, then every metadata frame in order, then the
pairwise-combined Counters frames (`flat_map` drops the unpaired trailing
frame; `sum`'s unreachable mixed-variant panic is modelled as dropping,
which no well-formed trace exercises). -/
def foldFrames (descFrame : TraceFrame) (frames : List TraceFrame) :
    List TraceFrame :=
  descFrame :: (frames.filter TraceFrame.is_metadata ++
    (pairs (frames.filter TraceFrame.is_counters)).filterMap
      (fun p => TraceFrame.sum p.1 p.2))

/-- Sum of the Counter values recorded for metric `id` across the Counters
frames of a frame list. -/
def sumCounterValues (id : Nat) (frames : List TraceFrame) : F64 :=
  frames.foldl (fun acc f =>
    match f with
    | .counters _ cs => cs.foldl (fun acc2 c =>
        if c.id = id then
          match c.value with
          | .counter _ v => F64.fadd acc2 v
          | .gauge _ _ _ _ => acc2
        else acc2) acc
    | _ => acc) (.fin 0)

/-- The total of a non-empty list of doubles, summed left to right as the
spec's `Σ` denotes (the empty sum is 0, unused). -/
def sumF : List F64 → F64
  | [] => .fin 0
  | x :: xs => xs.foldl F64.fadd x

/-- A binary association tree of counter values: its fold with `merge`
realizes one arbitrary association order of pairwise merges of the leaf
sequence. -/
inductive MergeTree where
  | leaf (c : CounterType)
  | node (l r : MergeTree)

/-- The leaf sequence of a merge tree, left to right. -/
def MergeTree.leaves : MergeTree → List CounterType
  | .leaf c => [c]
  | .node l r => l.leaves ++ r.leaves

/-- Fold a merge tree with `CounterType.merge`; a variant mismatch
anywhere yields `none`. -/
def MergeTree.merged : MergeTree → Option CounterType
  | .leaf c => some c
  | .node l r =>
      match l.merged, r.merged with
      | some a, some b =>
          match CounterType.merge a b with
          | (none, v) => some v
          | (some _, _) => none
      | _, _ => none

/-- The `min` field of a gauge (NaN on a counter, unused). -/
def CounterType.gmin : CounterType → F64
  | .gauge mn _ _ _ => mn
  | .counter _ _ => .nan

/-- The `max` field of a gauge (NaN on a counter, unused). -/
def CounterType.gmax : CounterType → F64
  | .gauge _ mx _ _ => mx
  | .counter _ _ => .nan

/-- The `hits` field of a gauge (NaN on a counter, unused). -/
def CounterType.ghits : CounterType → F64
  | .gauge _ _ hh _ => hh
  | .counter _ _ => .nan

/-- The `total` field of a gauge (NaN on a counter, unused). -/
def CounterType.gtotal : CounterType → F64
  | .gauge _ _ _ tt => tt
  | .counter _ _ => .nan

/-- A gauge none of whose four fields is NaN. -/
def isNonNanGauge : CounterType → Bool
  | .gauge mn mx hh tt =>
      decide (mn ≠ .nan) && decide (mx ≠ .nan) &&
        decide (hh ≠ .nan) && decide (tt ≠ .nan)
  | .counter _ _ => false

/-- Concrete three-gauge association tree used to witness the merge law. -/
def gaugeTreeExample : MergeTree :=
  .node (.node (.leaf (.gauge (.fin 1) (.fin 5) (.fin 1) (.fin 3)))
      (.leaf (.gauge (.fin 0) (.fin 2) (.fin 2) (.fin 4))))
    (.leaf (.gauge (.fin 2) (.fin 9) (.fin 3) (.fin 5)))

/-- C4 counterexample: for the Gauge `(min 0, max 0, hits 0, total 0)` the
source `value()` returns NaN (the IEEE quotient `0/0`), not 0, and the
text-format serialization prints `NaN`, not `0`. -/
theorem c4_counterexample :
    CounterType.value (.gauge (.fin 0) (.fin 0) (.fin 0) (.fin 0)) = .nan ∧
    F64.nan ≠ F64.fin 0 ∧
    CounterType.serialize (.gauge (.fin 0) (.fin 0) (.fin 0) (.fin 0)) ("g").toList =
      ("g NaN\n").toList ∧
    ("g NaN\n").toList ≠ ("g 0\n").toList := by
  refine ⟨by simp [CounterType.value, F64.fdiv], by simp, ?_, by decide⟩
  simp [CounterType.serialize, F64.fdiv, F64.render]

/-- C4 amended: for every Gauge with `hits = 0`, `value()` returns the
uncoerced IEEE quotient `total/hits`: NaN when `total = 0` and a signed
infinity when `total` is a nonzero finite value; the text-format
serialization prints that quotient (`NaN` for the all-zero gauge), with no
coercion to 0 anywhere. -/
theorem c4_amended :
    (∀ mn mx : F64, CounterType.value (.gauge mn mx (.fin 0) (.fin 0)) = .nan) ∧
    (∀ mn mx : F64, ∀ q : ℚ, q ≠ 0 →
      CounterType.value (.gauge mn mx (.fin 0) (.fin q)) = .inf (decide (q < 0))) ∧
    (∀ mn mx : F64, ∀ name : List Char,
      CounterType.serialize (.gauge mn mx (.fin 0) (.fin 0)) name =
        name ++ (" NaN\n").toList) := by
  refine ⟨fun mn mx => by simp [CounterType.value, F64.fdiv],
    fun mn mx q hq => by simp [CounterType.value, F64.fdiv, hq],
    fun mn mx name => by simp [CounterType.serialize, F64.fdiv, F64.render]⟩

/-- C4 witness: the amended statement applied to the concrete gauge
`(0, 0, hits 0, total 5)`, whose value is positive infinity. -/
theorem c4_witness :
    CounterType.value (.gauge (.fin 0) (.fin 0) (.fin 0) (.fin 5)) =
      .inf (decide ((5 : ℚ) < 0)) :=
  c4_amended.2.1 (.fin 0) (.fin 0) 5 (by norm_num)

/-- C5 counterexample: with the NaN in the second argument position,
`min_f64` returns the NaN, not the non-NaN argument. -/
theorem c5_counterexample :
    min_f64 (.fin 0) .nan = .nan ∧ F64.nan ≠ F64.fin 0 := by
  exact ⟨by simp [min_f64, F64.flt], by simp⟩

/-- C5 amended: because every IEEE comparison against NaN is false,
`min_f64` returns its second argument whenever either argument is NaN
(so it returns the non-NaN only when the NaN is in the first position),
and `max_f64` returns its first argument (so it returns the non-NaN only
when the NaN is in the second position). -/
theorem c5_amended :
    ∀ x : F64, min_f64 .nan x = x ∧ min_f64 x .nan = .nan ∧
      max_f64 x .nan = x ∧ max_f64 .nan x = .nan := by
  intro x
  cases x <;> simp [min_f64, max_f64, F64.flt]

/-- C7 counterexample: `delta` on Gauges does not subtract the `min`
field: for `a = Gauge(5,5,1,5)` and `b = Gauge(1,1,1,1)` the result keeps
`min = min(5,1) = 1` where elementwise subtraction would give `5-1 = 4`. -/
theorem c7_counterexample :
    CounterType.delta (.gauge (.fin 5) (.fin 5) (.fin 1) (.fin 5))
        (.gauge (.fin 1) (.fin 1) (.fin 1) (.fin 1)) =
      (none, .gauge (.fin 1) (.fin 5) (.fin 0) (.fin 4)) ∧
    F64.fin 1 ≠ F64.fin 4 := by
  constructor
  · simp [CounterType.delta, min_f64, max_f64, F64.fsub, F64.flt]
    norm_num
  · simp

/-- C7 amended: `delta(a, b)` subtracts elementwise only on Counters
(value, and wrapping `u64` subtraction on the timestamp); on Gauges it
subtracts `hits` and `total` but combines `min` with `min_f64` and `max`
with `max_f64` instead of subtracting them. -/
theorem c7_amended :
    (∀ (ts1 ts2 : Nat) (v1 v2 : F64),
      CounterType.delta (.counter ts1 v1) (.counter ts2 v2) =
        (none, .counter (u64sub ts1 ts2) (F64.fsub v1 v2))) ∧
    (∀ a b c d a2 b2 c2 d2 : F64,
      CounterType.delta (.gauge a b c d) (.gauge a2 b2 c2 d2) =
        (none, .gauge (min_f64 a a2) (max_f64 b b2)
          (F64.fsub c c2) (F64.fsub d d2))) :=
  ⟨fun _ _ _ _ => rfl, fun _ _ _ _ _ _ _ _ => rfl⟩

theorem lookupA_updateA_self {β : Type} {l : List (List Char × β)} {k : List Char}
    {v : β} (v2 : β) (h : lookupA l k = some v) :
    lookupA (updateA l k v2) k = some v2 := by
  induction l with
  | nil => simp [lookupA] at h
  | cons kv rest ih =>
      by_cases hk : kv.1 = k
      · simp [updateA, hk, lookupA]
      · simp [lookupA, hk] at h
        simp [updateA, hk, lookupA, ih h]

theorem lookupA_updateA_ne {β : Type} {l : List (List Char × β)} {k k2 : List Char}
    {v : β} (h : k2 ≠ k) : lookupA (updateA l k v) k2 = lookupA l k2 := by
  induction l with
  | nil => simp [updateA]
  | cons kv rest ih =>
      by_cases hk : kv.1 = k
      · simp [updateA, hk, lookupA, Ne.symm h, hk ▸ Ne.symm h]
      · simp [updateA, hk, lookupA, ih]

theorem lookupA_append_single_ne {β : Type} {l : List (List Char × β)}
    {k k2 : List Char} {v : β} (h : k2 ≠ k) :
    lookupA (l ++ [(k, v)]) k2 = lookupA l k2 := by
  induction l with
  | nil => simp [lookupA, Ne.symm h]
  | cons kv rest ih =>
      by_cases hk : kv.1 = k2
      · simp [lookupA, hk]
      · simp [lookupA, hk, ih]

theorem lookupA_removeA_ne {β : Type} {l : List (List Char × β)} {k k2 : List Char}
    (h : k2 ≠ k) : lookupA (removeA l k) k2 = lookupA l k2 := by
  induction l with
  | nil => simp [removeA, lookupA]
  | cons kv rest ih =>
      by_cases hk : kv.1 = k
      · have hkv2 : kv.1 ≠ k2 := by rw [hk]; exact Ne.symm h
        simp [removeA, hk, lookupA, hkv2, ih, Ne.symm h]
      · simp [removeA, hk, lookupA, ih]

theorem updateA_self_id {β : Type} {l : List (List Char × β)} {k : List Char}
    {v : β} (h : lookupA l k = some v) : updateA l k v = l := by
  induction l with
  | nil => simp [lookupA] at h
  | cons kv rest ih =>
      obtain ⟨k1, v1⟩ := kv
      by_cases hk : k1 = k
      · simp [lookupA, hk] at h
        simp [updateA, hk, h]
      · simp [lookupA, hk] at h
        simp [updateA, hk, ih h]

theorem splitChar_of_not_contains {sep : Char} {name : List Char}
    (h : name.contains sep = false) : splitChar sep name = [name] := by
  induction name with
  | nil => simp [splitChar]
  | cons c rest ih =>
      simp only [List.contains_cons, Bool.or_eq_false_iff, beq_eq_false_iff_ne] at h
      have hc : ¬ c = sep := fun hh => h.1 hh.symm
      rw [splitChar, if_neg hc, ih h.2]

/-- C6 counterexample: the metric name `a}` contains an unmatched
brace-close character, yet `Exporter::push` on an empty exporter accepts
it and creates the counter (the source only rejects names with a
brace-open and no brace-close). -/
theorem c6_counterexample :
    (Exporter.push ⟨[]⟩ ⟨['a', '}'], [], .counter 0 (.fin 0)⟩).1 = none ∧
    (Exporter.push ⟨[]⟩ ⟨['a', '}'], [], .counter 0 (.fin 0)⟩).2.ht ≠ [] ∧
    (['a', '}'].contains '}', ['a', '}'].contains '{') = (true, false) := by
  refine ⟨?_, ?_, by decide⟩ <;>
    simp [Exporter.push, ExporterEntryGroup.push, ExporterEntryGroup.basenameOf,
      splitChar, lookupA]

/-- C6 amended: `Exporter::push` of a not-yet-present name fails exactly
when the name contains `{` but no `}` (an unmatched `}` alone is
accepted), and on failure the exporter is left unchanged — no counter is
created; for every name not containing `{`, `basename(name)` is the name
itself. -/
theorem c6_amended :
    (∀ (e : Exporter) (snap : CounterSnapshot),
      e.hasName snap.name = false →
      snap.name.contains '{' = true →
      snap.name.contains '}' = false →
      (Exporter.push e snap).1.isSome = true ∧ (Exporter.push e snap).2 = e) ∧
    (∀ name : List Char, name.contains '{' = false →
      ExporterEntryGroup.basenameOf name = name) := by
  constructor
  · intro e snap habs hopen hclose
    have h1 : '{' ∈ snap.name := by simpa using hopen
    have h2 : '}' ∉ snap.name := by simpa using hclose
    have key : ∀ g : ExporterEntryGroup, (lookupA g.ht snap.name).isSome = false →
        g.push snap = (some (("Bad metric name, unmatched brackets").toList), g) := by
      intro g hgabs
      unfold ExporterEntryGroup.push
      simp [hgabs, h1, h2]
    cases hg : lookupA e.ht (ExporterEntryGroup.basenameOf snap.name) with
    | some g =>
        have habs2 : (lookupA g.ht snap.name).isSome = false := by
          unfold Exporter.hasName at habs
          rw [hg] at habs
          exact habs
        simp only [Exporter.push, hg, key g habs2]
        exact ⟨rfl, by rw [updateA_self_id hg]⟩
    | none =>
        have hkey := key ⟨ExporterEntryGroup.basenameOf snap.name, snap.doc, []⟩
          (by simp [lookupA])
        simp only [Exporter.push, hg, hkey]
        simp
  · intro name h
    unfold ExporterEntryGroup.basenameOf
    rw [splitChar_of_not_contains h]
    rfl

/-- C6 witness: the amended statement applied to the empty exporter, the
name `a{` (which has a brace-open and no brace-close and so is rejected
without creating anything), and the brace-free name `ab`. -/
theorem c6_witness :
    ((Exporter.push ⟨[]⟩ ⟨['a', '{'], [], .counter 0 (.fin 0)⟩).1.isSome = true ∧
      (Exporter.push ⟨[]⟩ ⟨['a', '{'], [], .counter 0 (.fin 0)⟩).2 = ⟨[]⟩) ∧
    ExporterEntryGroup.basenameOf ['a', 'b'] = ['a', 'b'] :=
  ⟨c6_amended.1 ⟨[]⟩ ⟨['a', '{'], [], .counter 0 (.fin 0)⟩ (by decide) (by decide)
    (by decide), c6_amended.2 ['a', 'b'] (by decide)⟩

theorem applyJobOp_lookup_ne {st : FactoryState} {op : JobOp} {k : List Char}
    (h : k ≠ op.jobid) :
    lookupA (applyJobOp st op).perjob k = lookupA st.perjob k := by
  cases op with
  | resolve d t =>
      simp only [JobOp.jobid] at h
      cases hg : lookupA st.perjob d.jobid with
      | some e => simp only [applyJobOp, resolveJob, hg]; exact lookupA_updateA_ne h
      | none => simp only [applyJobOp, resolveJob, hg]; exact lookupA_append_single_ne h
  | relax d =>
      simp only [JobOp.jobid] at h
      cases hg : lookupA st.perjob d.jobid with
      | some e =>
          simp only [applyJobOp, relaxJob, hg]
          by_cases h0 : e.counter - 1 < 0
          · simp [h0]
          · by_cases h1 : e.counter - 1 = 0
            · simp [h0, h1]; exact lookupA_removeA_ne h
            · simp [h0, h1]; exact lookupA_updateA_ne h
      | none => simp only [applyJobOp, relaxJob, hg]

theorem runJobOps_lookup_ne {ops : List JobOp} {st : FactoryState} {k : List Char}
    (h : ∀ op ∈ ops, k ≠ op.jobid) :
    lookupA (runJobOps st ops).perjob k = lookupA st.perjob k := by
  induction ops generalizing st with
  | nil => rfl
  | cons op rest ih =>
      have step : lookupA (applyJobOp st op).perjob k = lookupA st.perjob k :=
        applyJobOp_lookup_ne (h op (by simp))
      have tail : lookupA (runJobOps (applyJobOp st op) rest).perjob k =
          lookupA (applyJobOp st op).perjob k :=
        ih (fun o ho => h o (by simp [ho]))
      simpa [runJobOps] using tail.trans step

/-- C8 counterexample: starting from the freshly initialized registry, the
single-call sequence `relax_job(main)` decrements the `"main"` sentinel
from 1 to 0 and removes it — the sentinel is not pinned. -/
theorem c8_counterexample :
    lookupA (runJobOps (initialFactoryState ['h']) [.relax mainJobDesc]).perjob
        ['m', 'a', 'i', 'n'] = none ∧
    lookupA (initialFactoryState ['h']).perjob ['m', 'a', 'i', 'n'] =
      some ⟨mainJobDesc, 1, 0, false⟩ := by
  constructor
  · simp [runJobOps, applyJobOp, relaxJob, initialFactoryState, lookupA,
      mainJobDesc, nodeJobId, removeA]
  · simp [initialFactoryState, lookupA, mainJobDesc]

/-- C8 amended: the two sentinel entries are created at refcount 1 and
survive, pinned at refcount 1, every sequence of `resolve_job`/`relax_job`
calls that never addresses a sentinel jobid; a call that does address
`"main"` or `"Node: <hostname>"` can increment it past 1 or (for
`relax_job`) remove it, since the source does not special-case them. -/
theorem c8_amended (host : List Char) (ops : List JobOp)
    (h : ∀ op ∈ ops, op.jobid ≠ mainJobDesc.jobid ∧ op.jobid ≠ nodeJobId host) :
    lookupA (runJobOps (initialFactoryState host) ops).perjob mainJobDesc.jobid =
        some ⟨mainJobDesc, 1, 0, false⟩ ∧
      lookupA (runJobOps (initialFactoryState host) ops).perjob (nodeJobId host) =
        some ⟨nodeJobDesc host, 1, 1, false⟩ := by
  constructor
  · rw [runJobOps_lookup_ne (fun op ho => Ne.symm (h op ho).1)]
    simp [initialFactoryState, lookupA]
  · rw [runJobOps_lookup_ne (fun op ho => Ne.symm (h op ho).2)]
    by_cases hmain : nodeJobId host = mainJobDesc.jobid
    · simp [initialFactoryState, lookupA, hmain, mainJobDesc, nodeJobId] at hmain ⊢
    · simp [initialFactoryState, lookupA, Ne.symm hmain]

/-- C8 witness: the amended statement applied to a concrete host `h` and
the sequence resolve/relax of an unrelated job `42`. -/
theorem c8_witness :
    lookupA (runJobOps (initialFactoryState ['h'])
        [.resolve ⟨['4', '2'], [], 1, [], [], [], [], .fin 0, .fin 0⟩ true,
         .relax ⟨['4', '2'], [], 1, [], [], [], [], .fin 0, .fin 0⟩]).perjob
      mainJobDesc.jobid = some ⟨mainJobDesc, 1, 0, false⟩ ∧
    lookupA (runJobOps (initialFactoryState ['h'])
        [.resolve ⟨['4', '2'], [], 1, [], [], [], [], .fin 0, .fin 0⟩ true,
         .relax ⟨['4', '2'], [], 1, [], [], [], [], .fin 0, .fin 0⟩]).perjob
      (nodeJobId ['h']) = some ⟨nodeJobDesc ['h'], 1, 1, false⟩ :=
  c8_amended ['h'] _ (by decide)

/-- C10: `resolve_job` on an already-registered jobid returns the stored
exporter handle, leaves the stored descriptor and exporter unchanged,
increments only the reference counter, sets `islocal` only upwards
(`islocal || tobesaved`), and leaves every other registry entry
untouched. -/
theorem c10_resolve_existing (st : FactoryState) (desc : JobDesc)
    (tobesaved : Bool) (e : PerJobRefcount)
    (h : lookupA st.perjob desc.jobid = some e) :
    (resolveJob st desc tobesaved).2 = e.exporter ∧
    lookupA (resolveJob st desc tobesaved).1.perjob desc.jobid =
      some ⟨e.desc, e.counter + 1, e.exporter, e.islocal || tobesaved⟩ ∧
    (∀ k, k ≠ desc.jobid →
      lookupA (resolveJob st desc tobesaved).1.perjob k = lookupA st.perjob k) := by
  refine ⟨by simp [resolveJob, h], ?_, ?_⟩
  · simp only [resolveJob, h]
    exact lookupA_updateA_self _ h
  · intro k hk
    simp only [resolveJob, h]
    exact lookupA_updateA_ne hk

/-- C10 witness: resolving the already-present `"main"` entry with
`tobesaved = true` returns handle 0, bumps the count to 2 and keeps the
descriptor; the node entry is untouched. -/
theorem c10_witness :
    (resolveJob (initialFactoryState ['h']) mainJobDesc true).2 = 0 ∧
    lookupA (resolveJob (initialFactoryState ['h']) mainJobDesc true).1.perjob
        mainJobDesc.jobid = some ⟨mainJobDesc, 1 + 1, 0, false || true⟩ ∧
    (∀ k, k ≠ mainJobDesc.jobid →
      lookupA (resolveJob (initialFactoryState ['h']) mainJobDesc true).1.perjob k =
        lookupA (initialFactoryState ['h']).perjob k) :=
  c10_resolve_existing (initialFactoryState ['h']) mainJobDesc true
    ⟨mainJobDesc, 1, 0, false⟩ (by simp [initialFactoryState, lookupA])

/-- C1 evaluated at the failing input: a client that sends
`JobDesc{jobid="42"}` and closes gets `resolve_job` during the session
(`jobExporter = true`) but NO `relax_job` at EOF, because the source
epilogue tests `desc.jobid.is_empty()` instead of its negation; dually, a
client sending an empty jobid — for which no job was ever resolved — does
trigger the `relax_job` call. -/
theorem c1_relax_condition_inverted :
    ((handleClient [.jobDesc ⟨['4', '2'], [], 1, [], [], [], [], .fin 0, .fin 0⟩]
        (.fin 100)).1.jobExporter = true) ∧
    ((handleClient [.jobDesc ⟨['4', '2'], [], 1, [], [], [], [], .fin 0, .fin 0⟩]
        (.fin 100)).2 = none) ∧
    ((handleClient [.jobDesc ⟨[], [], 1, [], [], [], [], .fin 0, .fin 0⟩]
        (.fin 100)).1.jobExporter = false) ∧
    ((handleClient [.jobDesc ⟨[], [], 1, [], [], [], [], .fin 0, .fin 0⟩]
        (.fin 100)).2 = some ⟨[], [], 1, [], [], [], [], .fin 0, .fin 100⟩) := by
  refine ⟨rfl, ?_, rfl, ?_⟩ <;>
    simp [handleClient, handleCommand, handleClientEof]

theorem lookupA_removeA_self {β : Type} {l : List (List Char × β)} {k : List Char} :
    lookupA (removeA l k) k = none := by
  induction l with
  | nil => simp [removeA, lookupA]
  | cons kv rest ih =>
      by_cases hk : kv.1 = k
      · simp [removeA, hk, ih]
      · simp [removeA, hk, lookupA, ih]

theorem lookupA_removeA_none {β : Type} {l : List (List Char × β)} {k k2 : List Char}
    (h : lookupA l k = none) : lookupA (removeA l k2) k = none := by
  by_cases hk : k = k2
  · subst hk; exact lookupA_removeA_self
  · rw [lookupA_removeA_ne hk]; exact h

theorem foldl_removeA_none {β : Type} {ks : List (List Char)}
    {l : List (List Char × β)} {k : List Char} (h : lookupA l k = none) :
    lookupA (ks.foldl removeA l) k = none := by
  induction ks generalizing l with
  | nil => exact h
  | cons k1 ks ih => exact ih (lookupA_removeA_none h)

theorem foldl_removeA_mem {β : Type} {ks : List (List Char)}
    {l : List (List Char × β)} {k : List Char} (h : k ∈ ks) :
    lookupA (ks.foldl removeA l) k = none := by
  induction ks generalizing l with
  | nil => cases h
  | cons k1 ks ih =>
      rcases List.mem_cons.1 h with h1 | h1
      · subst h1
        rw [List.foldl_cons]
        exact foldl_removeA_none lookupA_removeA_self
      · rw [List.foldl_cons]
        exact ih h1

theorem foldl_removeA_not_mem {β : Type} {ks : List (List Char)}
    {l : List (List Char × β)} {k : List Char} (h : k ∉ ks) :
    lookupA (ks.foldl removeA l) k = lookupA l k := by
  induction ks generalizing l with
  | nil => rfl
  | cons k1 ks ih =>
      have h1 : k ≠ k1 := fun hh => h (by simp [hh])
      have h2 : k ∉ ks := fun hh => h (by simp [hh])
      rw [List.foldl_cons, ih h2, lookupA_removeA_ne h1]

theorem lookupA_insertA {β : Type} {l : List (List Char × β)} {k k2 : List Char}
    {v : β} : lookupA (insertA l k2 v) k =
      if k2 = k then some v else lookupA l k := by
  induction l with
  | nil => by_cases hk : k2 = k <;> simp [insertA, lookupA, hk]
  | cons kv rest ih =>
      by_cases hhead : kv.1 = k2
      · by_cases hk : k2 = k
        · simp [insertA, hhead, lookupA, hk]
        · have hne : ¬ kv.1 = k := by rw [hhead]; exact hk
          simp [insertA, hhead, lookupA, hk, hne]
      · by_cases hk2 : kv.1 = k
        · have hne : ¬ k2 = k := fun hh => hhead (hk2.trans hh.symm)
          have hne2 : ¬ k = k2 := fun hh => hne hh.symm
          simp [insertA, hhead, lookupA, hk2, hne, hne2]
        · simp [insertA, hhead, lookupA, hk2, ih]

theorem foldl_insertA_isSome {β : Type} {pending : List (List Char × β)}
    {l : List (List Char × β)} {k : List Char}
    (h : (lookupA l k).isSome = true) :
    (lookupA (pending.foldl (fun acc kv => insertA acc kv.1 kv.2) l) k).isSome = true := by
  induction pending generalizing l with
  | nil => exact h
  | cons kv rest ih =>
      refine ih ?_
      rw [lookupA_insertA]
      by_cases hk : kv.1 = k <;> simp [hk, h]

theorem lookupA_of_mem {β : Type} {l : List (List Char × β)} {k : List Char}
    {v : β} (h : (k, v) ∈ l) : (lookupA l k).isSome = true := by
  induction l with
  | nil => cases h
  | cons kv rest ih =>
      rcases List.mem_cons.1 h with h1 | h1
      · simp [lookupA, ← h1]
      · by_cases hk : kv.1 = k <;> simp [lookupA, hk, ih h1]

theorem nodup_keys_mem_unique {β : Type} {l : List (List Char × β)}
    {k : List Char} {a b : β} (hnd : (l.map Prod.fst).Nodup)
    (ha : (k, a) ∈ l) (hb : (k, b) ∈ l) : a = b := by
  induction l with
  | nil => cases ha
  | cons kv rest ih =>
      simp only [List.map_cons, List.nodup_cons] at hnd
      rcases List.mem_cons.1 ha with h1 | h1 <;> rcases List.mem_cons.1 hb with h2 | h2
      · have h3 : ((k, a) : List Char × β) = (k, b) := h1.trans h2.symm
        simpa using h3
      · exfalso
        apply hnd.1
        have h3 : kv.1 = k := by rw [← h1]
        rw [h3]
        exact List.mem_map.2 ⟨(k, b), h2, rfl⟩
      · exfalso
        apply hnd.1
        have h3 : kv.1 = k := by rw [← h2]
        rw [h3]
        exact List.mem_map.2 ⟨(k, a), h1, rfl⟩
      · exact ih hnd.2 h1 h2

/-- C2 counterexample: a Trace-kind source whose scrape execution fails is
removed from the active registry by the very tick that observed the
failure — `run_scrapping` collects every erroring key without looking at
the kind. -/
theorem c2_counterexample :
    lookupA (runScrappingTick
        [(("/trace.42").toList,
          (⟨("/trace.42").toList, .trace ['4', '2'], true, true⟩ : ProxyScraper))] [])
      (("/trace.42").toList) = none ∧
    lookupA [(("/trace.42").toList,
        (⟨("/trace.42").toList, .trace ['4', '2'], true, true⟩ : ProxyScraper))]
      (("/trace.42").toList) =
      some ⟨("/trace.42").toList, .trace ['4', '2'], true, true⟩ := by
  constructor
  · simp [runScrappingTick, ProxyScraper.scrape, lookupA, removeA]
  · simp [lookupA]

/-- C2 amended: in the scrape scheduler loop, ANY source whose scrape
execution fails this tick — Proxy, Prometheus, Trace, System and FTIO
alike — is removed from the active registry at the end of the tick (even
a pending scrape re-registered under the same key is removed, since
removal happens after the pending backpush); a source whose scrape
returns Ok is still registered afterwards. -/
theorem c2_amended :
    (∀ (scrapes pending : List (List Char × ProxyScraper)) (k : List Char)
      (s : ProxyScraper), (k, s) ∈ scrapes → s.scrape.isSome = true →
      lookupA (runScrappingTick scrapes pending) k = none) ∧
    (∀ (scrapes pending : List (List Char × ProxyScraper)) (k : List Char)
      (s : ProxyScraper), (scrapes.map Prod.fst).Nodup → (k, s) ∈ scrapes →
      s.scrape.isSome = false →
      (lookupA (runScrappingTick scrapes pending) k).isSome = true) := by
  constructor
  · intro scrapes pending k s hmem hfail
    have hdel : k ∈ (scrapes.filter (fun kv => kv.2.scrape.isSome)).map Prod.fst := by
      refine List.mem_map.2 ⟨(k, s), ?_, rfl⟩
      exact List.mem_filter.2 ⟨hmem, hfail⟩
    exact foldl_removeA_mem hdel
  · intro scrapes pending k s hnd hmem hok
    have hndel : k ∉ (scrapes.filter (fun kv => kv.2.scrape.isSome)).map Prod.fst := by
      intro hcon
      rcases List.mem_map.1 hcon with ⟨kv, hkv, hfst⟩
      rcases List.mem_filter.1 hkv with ⟨hkvmem, hkvfail⟩
      obtain ⟨k1, s1⟩ := kv
      have hk : k1 = k := hfst
      subst hk
      have : s1 = s := nodup_keys_mem_unique hnd hkvmem hmem
      rw [this] at hkvfail
      rw [hok] at hkvfail
      cases hkvfail
    have hbase : (lookupA scrapes k).isSome = true := lookupA_of_mem hmem
    have hpend : (lookupA (pending.foldl (fun acc kv => insertA acc kv.1 kv.2)
        scrapes) k).isSome = true := foldl_insertA_isSome hbase
    rw [runScrappingTick, foldl_removeA_not_mem hndel]
    exact hpend

/-- C2 witness: the amended statement applied to a failing Prometheus
source (removed) and a succeeding Trace source (kept). -/
theorem c2_witness :
    lookupA (runScrappingTick
        [(['u'], (⟨['u'], .prometheus, true, true⟩ : ProxyScraper))] []) ['u'] = none ∧
    (lookupA (runScrappingTick
        [(['t'], (⟨['t'], .trace ['1'], true, false⟩ : ProxyScraper))] []) ['t']).isSome
      = true :=
  ⟨c2_amended.1 [(['u'], ⟨['u'], .prometheus, true, true⟩)] [] ['u']
      ⟨['u'], .prometheus, true, true⟩ (by simp) (by simp [ProxyScraper.scrape]),
    c2_amended.2 [(['t'], ⟨['t'], .trace ['1'], true, false⟩)] [] ['t']
      ⟨['t'], .trace ['1'], true, false⟩ (by simp) (by simp)
      (by simp [ProxyScraper.scrape])⟩

/-- C3 counterexample: a trace with two Counters frames, each holding
value 1 for the Counter with id 0, folds to a single frame holding value
1 — the second frame's value, not the sum 2 — so the per-metric Counter
sum across frames drops from 2 to 1. -/
theorem c3_counterexample :
    foldFrames (.desc (.fin 0) ⟨['4'], [], 1, [], [], [], [], .fin 0, .fin 0⟩)
        [.counters (.fin 0) [⟨0, .counter 0 (.fin 1)⟩],
         .counters (.fin 2) [⟨0, .counter 10 (.fin 1)⟩]] =
      [.desc (.fin 0) ⟨['4'], [], 1, [], [], [], [], .fin 0, .fin 0⟩,
       .counters (.fin 1) [⟨0, .counter 10 (.fin 1)⟩]] ∧
    sumCounterValues 0
        [.counters (.fin 0) [⟨0, .counter 0 (.fin 1)⟩],
         .counters (.fin 2) [⟨0, .counter 10 (.fin 1)⟩]] = .fin 2 ∧
    sumCounterValues 0
        (foldFrames (.desc (.fin 0) ⟨['4'], [], 1, [], [], [], [], .fin 0, .fin 0⟩)
          [.counters (.fin 0) [⟨0, .counter 0 (.fin 1)⟩],
           .counters (.fin 2) [⟨0, .counter 10 (.fin 1)⟩]]) = .fin 1 ∧
    F64.fin 2 ≠ F64.fin 1 := by
  refine ⟨?_, ?_, ?_, by simp⟩ <;>
    (simp [foldFrames, pairs, TraceFrame.sum, mergecounters, mergeOneCounter,
      lastById, sumCounterValues, TraceFrame.is_metadata, TraceFrame.is_counters,
      F64.fadd, F64.fdiv, List.find?]
     try norm_num)

/-- C3 amended: when a trace folds, paired Counters frames are combined
per counter id, but NOT with the merge semantics of the counter kernel
for Counters: a Counter present in both frames keeps the second frame's
timestamp and value verbatim (so per-metric Counter sums across frames
are not preserved — see the counterexample); only Gauges are combined as
the kernel merges them: min of the two mins, max of the two maxes, hits
and total summed.  Counters only in the second frame are kept as-is. -/
theorem c3_amended (first second out : List TraceCounter)
    (h : mergecounters first second = some out) :
    ∀ v ∈ second,
      (∀ prev, lastById first v.id = some prev →
        (∀ ts val pts pval, v.value = .counter ts val →
          prev.value = .counter pts pval →
          TraceCounter.mk v.id (.counter ts val) ∈ out) ∧
        (∀ mn mx hh tt mn2 mx2 hh2 tt2, v.value = .gauge mn mx hh tt →
          prev.value = .gauge mn2 mx2 hh2 tt2 →
          TraceCounter.mk v.id (.gauge (min_f64 mn mn2) (max_f64 mx mx2)
            (F64.fadd hh hh2) (F64.fadd tt tt2)) ∈ out)) ∧
      (lastById first v.id = none → v ∈ out) := by
  induction second generalizing out with
  | nil => intro v hv; cases hv
  | cons v2 rest ih =>
      intro v hv
      rw [mergecounters] at h
      cases hy : mergeOneCounter first v2 with
      | none => rw [hy] at h; cases h
      | some y =>
          cases hys : mergecounters first rest with
          | none => rw [hy, hys] at h; cases h
          | some ys =>
              rw [hy, hys] at h
              have hout : out = y :: ys := by
                injection h with h2
                exact h2.symm
              subst hout
              rcases List.mem_cons.1 hv with h1 | h1
              · subst h1
                constructor
                · intro prev hprev
                  constructor
                  · intro ts val pts pval hvv hpv
                    simp only [mergeOneCounter, hprev, hvv, hpv] at hy
                    injection hy with h3
                    rw [← h3]
                    exact List.mem_cons_self _ _
                  · intro mn mx hh tt mn2 mx2 hh2 tt2 hvv hpv
                    simp only [mergeOneCounter, hprev, hvv, hpv] at hy
                    injection hy with h3
                    rw [← h3]
                    exact List.mem_cons_self _ _
                · intro hnone
                  simp only [mergeOneCounter, hnone] at hy
                  injection hy with h3
                  rw [← h3]
                  exact List.mem_cons_self _ _
              · have hrec := ih ys hys v h1
                refine ⟨fun prev hprev => ?_, fun hnone => ?_⟩
                · exact ⟨fun ts val pts pval hvv hpv =>
                    List.mem_cons_of_mem _ ((hrec.1 prev hprev).1 ts val pts pval hvv hpv),
                    fun mn mx hh tt mn2 mx2 hh2 tt2 hvv hpv =>
                    List.mem_cons_of_mem _ ((hrec.1 prev hprev).2 mn mx hh tt mn2 mx2 hh2 tt2 hvv hpv)⟩
                · exact List.mem_cons_of_mem _ (hrec.2 hnone)

/-- C3 witness: the amended statement applied to two concrete frames
holding a Counter with id 0 and a Gauge with id 1 each. -/
theorem c3_witness :
    (TraceCounter.mk 0 (.counter 10 (.fin 1)) ∈
      [TraceCounter.mk 0 (.counter 10 (.fin 1)),
       TraceCounter.mk 1 (.gauge (min_f64 (.fin 0) (.fin 1)) (max_f64 (.fin 5) (.fin 2))
         (F64.fadd (.fin 2) (.fin 1)) (F64.fadd (.fin 4) (.fin 3)))]) ∧
    (TraceCounter.mk 1 (.gauge (min_f64 (.fin 0) (.fin 1)) (max_f64 (.fin 5) (.fin 2))
        (F64.fadd (.fin 2) (.fin 1)) (F64.fadd (.fin 4) (.fin 3))) ∈
      [TraceCounter.mk 0 (.counter 10 (.fin 1)),
       TraceCounter.mk 1 (.gauge (min_f64 (.fin 0) (.fin 1)) (max_f64 (.fin 5) (.fin 2))
         (F64.fadd (.fin 2) (.fin 1)) (F64.fadd (.fin 4) (.fin 3)))]) := by
  have hmc : mergecounters
      [⟨0, .counter 0 (.fin 1)⟩, ⟨1, .gauge (.fin 1) (.fin 2) (.fin 1) (.fin 3)⟩]
      [⟨0, .counter 10 (.fin 1)⟩, ⟨1, .gauge (.fin 0) (.fin 5) (.fin 2) (.fin 4)⟩] =
      some [⟨0, .counter 10 (.fin 1)⟩,
        ⟨1, .gauge (min_f64 (.fin 0) (.fin 1)) (max_f64 (.fin 5) (.fin 2))
          (F64.fadd (.fin 2) (.fin 1)) (F64.fadd (.fin 4) (.fin 3))⟩] := by
    simp [mergecounters, mergeOneCounter, lastById, List.find?]
  have hthm := c3_amended _ _ _ hmc
  constructor
  · exact (hthm ⟨0, .counter 10 (.fin 1)⟩ (by simp)).1 ⟨0, .counter 0 (.fin 1)⟩
      (by simp [lastById, List.find?]) |>.1 10 (.fin 1) 0 (.fin 1) rfl rfl
  · exact (hthm ⟨1, .gauge (.fin 0) (.fin 5) (.fin 2) (.fin 4)⟩ (by simp)).1
      ⟨1, .gauge (.fin 1) (.fin 2) (.fin 1) (.fin 3)⟩
      (by simp [lastById, List.find?]) |>.2 (.fin 0) (.fin 5) (.fin 2) (.fin 4)
      (.fin 1) (.fin 2) (.fin 1) (.fin 3) rfl rfl

theorem F64.fadd_assoc (a b c : F64) :
    F64.fadd (F64.fadd a b) c = F64.fadd a (F64.fadd b c) := by
  cases a <;> cases b <;> cases c <;>
    simp only [F64.fadd] <;>
    try rfl
  all_goals (try (rename_i s t u; cases s <;> cases t <;> cases u <;> simp [F64.fadd]))
  all_goals (try (rename_i s t; cases s <;> cases t <;> simp [F64.fadd]))
  all_goals simp [F64.fadd, add_assoc]

theorem F64.flt_irrefl (a : F64) : F64.flt a a = false := by
  cases a <;> simp [F64.flt]

theorem F64.flt_trans {a b c : F64} (h1 : F64.flt a b = true)
    (h2 : F64.flt b c = true) : F64.flt a c = true := by
  cases a <;> cases b <;> cases c <;> simp_all [F64.flt]
  exact lt_trans h1 h2

theorem F64.flt_total {a b : F64} (ha : a ≠ .nan) (hb : b ≠ .nan) :
    F64.flt a b = true ∨ a = b ∨ F64.flt b a = true := by
  cases a with
  | nan => exact absurd rfl ha
  | inf s =>
      cases b with
      | nan => exact absurd rfl hb
      | inf t => cases s <;> cases t <;> simp [F64.flt]
      | fin x => cases s <;> simp [F64.flt]
  | fin x =>
      cases b with
      | nan => exact absurd rfl hb
      | inf t => cases t <;> simp [F64.flt]
      | fin y =>
          rcases lt_trichotomy x y with h | h | h
          · exact Or.inl (by simp [F64.flt, h])
          · exact Or.inr (Or.inl (by simp [h]))
          · exact Or.inr (Or.inr (by simp [F64.flt, h]))

theorem foldl_fadd_shift (ys : List F64) (a b : F64) :
    ys.foldl F64.fadd (F64.fadd a b) = F64.fadd a (ys.foldl F64.fadd b) := by
  induction ys generalizing b with
  | nil => rfl
  | cons y ys ih =>
      rw [List.foldl_cons, List.foldl_cons, F64.fadd_assoc, ih]

theorem sumF_append {xs ys : List F64} (hx : xs ≠ []) (hy : ys ≠ []) :
    sumF (xs ++ ys) = F64.fadd (sumF xs) (sumF ys) := by
  match xs, ys with
  | x :: xs2, y :: ys2 =>
      show sumF (x :: (xs2 ++ y :: ys2)) = _
      rw [sumF, sumF, sumF, List.foldl_append, List.foldl_cons, foldl_fadd_shift]

theorem flt_false_step {x a b : F64} (ha : a ≠ .nan) (hb : b ≠ .nan)
    (hnab : F64.flt a b = false) (hxa : F64.flt x a = false) :
    F64.flt x b = false := by
  by_contra hcon
  rw [Bool.not_eq_false] at hcon
  rcases F64.flt_total ha hb with h | h | h
  · rw [h] at hnab; cases hnab
  · rw [← h] at hcon; rw [hcon] at hxa; cases hxa
  · have h2 := F64.flt_trans hcon h
    rw [h2] at hxa; cases hxa

theorem flt_false_step2 {x a b : F64} (hab : F64.flt a b = true)
    (hxb : F64.flt x b = false) : F64.flt x a = false := by
  by_contra hcon
  rw [Bool.not_eq_false] at hcon
  have h2 := F64.flt_trans hcon hab
  rw [h2] at hxb; cases hxb

theorem flt_false_step3 {x a b : F64} (hab : F64.flt a b = true)
    (hax : F64.flt a x = false) : F64.flt b x = false := by
  by_contra hcon
  rw [Bool.not_eq_false] at hcon
  have h2 := F64.flt_trans hab hcon
  rw [h2] at hax; cases hax

theorem flt_false_step4 {x a b : F64} (ha : a ≠ .nan) (hb : b ≠ .nan)
    (hnab : F64.flt a b = false) (hbx : F64.flt b x = false) :
    F64.flt a x = false := by
  by_contra hcon
  rw [Bool.not_eq_false] at hcon
  rcases F64.flt_total ha hb with h | h | h
  · rw [h] at hnab; cases hnab
  · rw [h] at hcon; rw [hcon] at hbx; cases hbx
  · have h2 := F64.flt_trans h hcon
    rw [h2] at hbx; cases hbx

theorem nonNan_fields {c : CounterType} (h : isNonNanGauge c = true) :
    c.gmin ≠ .nan ∧ c.gmax ≠ .nan ∧ c.ghits ≠ .nan ∧ c.gtotal ≠ .nan := by
  cases c <;> simp_all [isNonNanGauge, CounterType.gmin, CounterType.gmax,
    CounterType.ghits, CounterType.gtotal]

theorem MergeTree.leaves_ne_nil (t : MergeTree) : t.leaves ≠ [] := by
  induction t <;> simp_all [MergeTree.leaves]

theorem merged_gauge_tree (t : MergeTree)
    (h : ∀ c ∈ t.leaves, isNonNanGauge c = true) :
    ∃ mn mx hh tot, t.merged = some (.gauge mn mx hh tot) ∧
      mn ∈ t.leaves.map CounterType.gmin ∧
      (∀ x ∈ t.leaves.map CounterType.gmin, F64.flt x mn = false) ∧
      mx ∈ t.leaves.map CounterType.gmax ∧
      (∀ x ∈ t.leaves.map CounterType.gmax, F64.flt mx x = false) ∧
      hh = sumF (t.leaves.map CounterType.ghits) ∧
      tot = sumF (t.leaves.map CounterType.gtotal) := by
  induction t with
  | leaf c =>
      have hc := h c (by simp [MergeTree.leaves])
      cases c with
      | counter ts v => simp [isNonNanGauge] at hc
      | gauge mn mx hh tot =>
          exact ⟨mn, mx, hh, tot, rfl,
            by simp [MergeTree.leaves, CounterType.gmin],
            by simp [MergeTree.leaves, CounterType.gmin, F64.flt_irrefl],
            by simp [MergeTree.leaves, CounterType.gmax],
            by simp [MergeTree.leaves, CounterType.gmax, F64.flt_irrefl],
            by simp [MergeTree.leaves, CounterType.ghits, sumF],
            by simp [MergeTree.leaves, CounterType.gtotal, sumF]⟩
  | node l r ihl ihr =>
      obtain ⟨mnL, mxL, hhL, totL, hmL, hminmemL, hminL, hmaxmemL, hmaxL, hhsL, htotsL⟩ :=
        ihl (fun c hc => h c (by simp [MergeTree.leaves, hc]))
      obtain ⟨mnR, mxR, hhR, totR, hmR, hminmemR, hminR, hmaxmemR, hmaxR, hhsR, htotsR⟩ :=
        ihr (fun c hc => h c (by simp [MergeTree.leaves, hc]))
      have hmnLnn : mnL ≠ .nan := by
        rcases List.mem_map.1 hminmemL with ⟨c, hc, hceq⟩
        rw [← hceq]
        exact (nonNan_fields (h c (by simp [MergeTree.leaves, hc]))).1
      have hmnRnn : mnR ≠ .nan := by
        rcases List.mem_map.1 hminmemR with ⟨c, hc, hceq⟩
        rw [← hceq]
        exact (nonNan_fields (h c (by simp [MergeTree.leaves, hc]))).1
      have hmxLnn : mxL ≠ .nan := by
        rcases List.mem_map.1 hmaxmemL with ⟨c, hc, hceq⟩
        rw [← hceq]
        exact (nonNan_fields (h c (by simp [MergeTree.leaves, hc]))).2.1
      have hmxRnn : mxR ≠ .nan := by
        rcases List.mem_map.1 hmaxmemR with ⟨c, hc, hceq⟩
        rw [← hceq]
        exact (nonNan_fields (h c (by simp [MergeTree.leaves, hc]))).2.1
      refine ⟨min_f64 mnL mnR, max_f64 mxL mxR, F64.fadd hhL hhR, F64.fadd totL totR,
        ?_, ?_, ?_, ?_, ?_, ?_, ?_⟩
      · simp [MergeTree.merged, hmL, hmR, CounterType.merge]
      · simp only [MergeTree.leaves, List.map_append, List.mem_append]
        unfold min_f64
        by_cases hflt : F64.flt mnL mnR = true
        · simp only [hflt, if_true]
          exact Or.inl hminmemL
        · simp only [hflt, if_false]
          exact Or.inr hminmemR
      · simp only [MergeTree.leaves, List.map_append]
        intro x hx
        rcases List.mem_append.1 hx with hxL | hxR
        · unfold min_f64
          by_cases hflt : F64.flt mnL mnR = true
          · simp only [hflt, if_true]
            exact hminL x hxL
          · simp only [hflt, if_false]
            exact flt_false_step hmnLnn hmnRnn (Bool.not_eq_true _ ▸ hflt) (hminL x hxL)
        · unfold min_f64
          by_cases hflt : F64.flt mnL mnR = true
          · simp only [hflt, if_true]
            exact flt_false_step2 hflt (hminR x hxR)
          · simp only [hflt, if_false]
            exact hminR x hxR
      · simp only [MergeTree.leaves, List.map_append, List.mem_append]
        unfold max_f64
        by_cases hflt : F64.flt mxL mxR = true
        · simp only [hflt, if_true]
          exact Or.inr hmaxmemR
        · simp only [hflt, if_false]
          exact Or.inl hmaxmemL
      · simp only [MergeTree.leaves, List.map_append]
        intro x hx
        rcases List.mem_append.1 hx with hxL | hxR
        · unfold max_f64
          by_cases hflt : F64.flt mxL mxR = true
          · simp only [hflt, if_true]
            exact flt_false_step3 hflt (hmaxL x hxL)
          · simp only [hflt, if_false]
            exact hmaxL x hxL
        · unfold max_f64
          by_cases hflt : F64.flt mxL mxR = true
          · simp only [hflt, if_true]
            exact hmaxR x hxR
          · simp only [hflt, if_false]
            exact flt_false_step4 hmxLnn hmxRnn (Bool.not_eq_true _ ▸ hflt) (hmaxR x hxR)
      · simp only [MergeTree.leaves, List.map_append]
        rw [sumF_append (by simp [MergeTree.leaves_ne_nil l])
          (by simp [MergeTree.leaves_ne_nil r]), hhsL, hhsR]
      · simp only [MergeTree.leaves, List.map_append]
        rw [sumF_append (by simp [MergeTree.leaves_ne_nil l])
          (by simp [MergeTree.leaves_ne_nil r]), htotsL, htotsR]

/-- C9: folding any non-empty association tree of Gauges whose fields
contain no NaN with repeated `merge` yields a Gauge whose `min` is the
minimum over all inputs (it is one of them and no input is below it),
whose `max` is the maximum over all inputs, and whose `hits` and `total`
are the sums over all inputs; merging a Counter with a Gauge (in either
order) returns the variant-mismatch error and leaves `self` unchanged
(the other operand is taken by shared reference and never written). -/
theorem c9_merge_law :
    (∀ t : MergeTree, (∀ c ∈ t.leaves, isNonNanGauge c = true) →
      ∃ mn mx hh tot, t.merged = some (.gauge mn mx hh tot) ∧
        mn ∈ t.leaves.map CounterType.gmin ∧
        (∀ x ∈ t.leaves.map CounterType.gmin, F64.flt x mn = false) ∧
        mx ∈ t.leaves.map CounterType.gmax ∧
        (∀ x ∈ t.leaves.map CounterType.gmax, F64.flt mx x = false) ∧
        hh = sumF (t.leaves.map CounterType.ghits) ∧
        tot = sumF (t.leaves.map CounterType.gtotal)) ∧
    (∀ (ts : Nat) (v mn mx hh tot : F64),
      CounterType.merge (.counter ts v) (.gauge mn mx hh tot) =
        (some ("Both instances are not of the same variant").toList, .counter ts v) ∧
      CounterType.merge (.gauge mn mx hh tot) (.counter ts v) =
        (some ("Both instances are not of the same variant").toList,
          .gauge mn mx hh tot)) := by
  constructor
  · exact merged_gauge_tree
  · intro ts v mn mx hh tot
    exact ⟨rfl, rfl⟩

/-- C9 witness: the merge law applied to a concrete left-heavy
association of three NaN-free gauges. -/
theorem c9_witness :
    ∃ mn mx hh tot, gaugeTreeExample.merged = some (.gauge mn mx hh tot) ∧
      mn ∈ gaugeTreeExample.leaves.map CounterType.gmin ∧
      (∀ x ∈ gaugeTreeExample.leaves.map CounterType.gmin, F64.flt x mn = false) ∧
      mx ∈ gaugeTreeExample.leaves.map CounterType.gmax ∧
      (∀ x ∈ gaugeTreeExample.leaves.map CounterType.gmax, F64.flt mx x = false) ∧
      hh = sumF (gaugeTreeExample.leaves.map CounterType.ghits) ∧
      tot = sumF (gaugeTreeExample.leaves.map CounterType.gtotal) :=
  c9_merge_law.1 gaugeTreeExample (by decide)
